import Mathlib

/-! TAWSSPP: time average of wall shear stress.

A shallow embedding of `TAWSSPP.C` (a foam-extend post-processing utility) and
the properties of its traction formulas and of its running time average.

Arithmetic is exact: a `scalar` is a rational number, so rounding is not part
of the model.  A geometric field is an internal field (one value per cell)
together with a boundary field (one list of face values per patch); the
operators of the field library act value by value.  What the external
collaborators return at a selected time (the mesh after `readUpdate`, the
headers found in the time directory, the stress tensor of the turbulence
model, the `rho` entry of the transport model) is recorded in the time
directory the loop visits.
-/

namespace TAWSSPP

/-! ## Primitive types of the field library -/

/-- A `scalar`, in exact arithmetic. -/
abbrev scalar := ℚ

/-- A three-component `vector`. -/
@[ext]
structure vector where
  x : scalar
  y : scalar
  z : scalar
deriving DecidableEq, Repr

/-- A `symmTensor`, six independent components. -/
structure symmTensor where
  xx : scalar
  xy : scalar
  xz : scalar
  yy : scalar
  yz : scalar
  zz : scalar
deriving DecidableEq, Repr

namespace vector

/-- The constant `vector::zero`. -/
def zero : vector := ⟨0, 0, 0⟩

/-- Component-wise sum, `v + w`. -/
def add (v w : vector) : vector := ⟨v.x + w.x, v.y + w.y, v.z + w.z⟩

/-- Unary minus, `-v`. -/
def neg (v : vector) : vector := ⟨-v.x, -v.y, -v.z⟩

/-- Scalar times vector, `s * v`. -/
def smul (s : scalar) (v : vector) : vector := ⟨s * v.x, s * v.y, s * v.z⟩

/-- Vector times scalar, `v * s` (what `*=` applies to each value). -/
def muls (v : vector) (s : scalar) : vector := ⟨v.x * s, v.y * s, v.z * s⟩

/-- Vector divided by scalar, `v / s`. -/
def divs (v : vector) (s : scalar) : vector := ⟨v.x / s, v.y / s, v.z / s⟩

/-- Inner product of a vector with a symmetric tensor, `v & st`. -/
def inner (v : vector) (st : symmTensor) : vector :=
  ⟨v.x * st.xx + v.y * st.xy + v.z * st.xz,
   v.x * st.xy + v.y * st.yy + v.z * st.yz,
   v.x * st.xz + v.y * st.yz + v.z * st.zz⟩

instance : Zero vector := ⟨zero⟩
instance : Add vector := ⟨add⟩

/-- Vectors under `+` form a commutative monoid (used for sums over lists). -/
instance instAddCommMonoid : AddCommMonoid vector where
  add_assoc u v w := by
    show add (add u v) w = add u (add v w)
    simp only [add, add_assoc]
  zero_add v := by
    show add zero v = v
    simp only [add, zero, zero_add]
  add_zero v := by
    show add v zero = v
    simp only [add, zero, add_zero]
  add_comm v w := by
    show add v w = add w v
    simp only [add, add_comm]
  nsmul := nsmulRec

instance : Neg vector := ⟨neg⟩
instance : HMul scalar vector vector := ⟨smul⟩
instance : HMul vector scalar vector := ⟨muls⟩
instance : HDiv vector scalar vector := ⟨divs⟩

end vector

/-! ## Fields -/

/-- A `volVectorField`: the cell values and, per patch, the face values. -/
structure volVectorField where
  internalField : List vector
  boundaryField : List (List vector)
deriving DecidableEq, Repr

/-- A `volScalarField` (`mu`, `rho`); only its presence is used. -/
structure volScalarField where
  internalField : List scalar
  boundaryField : List (List scalar)
deriving DecidableEq, Repr

/-- The part of `fvMesh` the utility reads: the number of cells and the
boundary values of the face-area vectors `Sf()` and of their magnitudes
`magSf()`. -/
structure fvMesh where
  nCells : Nat
  Sf : List (List vector)
  magSf : List (List scalar)
deriving DecidableEq, Repr

/-- What is found at one selected time: the mesh after `readUpdate`, the
fields whose header is ok (`none` when `headerOk()` is false), the boundary
values of `devReff()` and `devRhoReff()` of the turbulence model, the `rho`
entry of the transport model, and the file `TAWSSPP` of the time directory. -/
structure TimeDir where
  mesh : fvMesh
  U : Option volVectorField
  mu : Option volScalarField
  rho : Option volScalarField
  devReff : List (List symmTensor)
  laminarTransportRho : scalar
  devRhoReff : List (List symmTensor)
  TAWSSPP : Option volVectorField
deriving DecidableEq, Repr

namespace volVectorField

/-- A field constructed from the mesh and a uniform `dimensionedVector`. -/
def uniform (mesh : fvMesh) (v : vector) : volVectorField :=
  { internalField := List.replicate mesh.nCells v
    boundaryField := mesh.Sf.map (fun patch => List.replicate patch.length v) }

/-- The operator `+=` with a field of the same mesh. -/
def addAssign (a b : volVectorField) : volVectorField :=
  { internalField := List.zipWith (fun v w => v + w) a.internalField b.internalField
    boundaryField :=
      List.zipWith (fun pa pb => List.zipWith (fun v w => v + w) pa pb)
        a.boundaryField b.boundaryField }

/-- The operator `/=` with a scalar. -/
def divAssign (a : volVectorField) (s : scalar) : volVectorField :=
  { internalField := a.internalField.map (fun v => v / s)
    boundaryField := a.boundaryField.map (fun patch => patch.map (fun v => v / s)) }

/-- The operator `*=` with a scalar. -/
def mulAssign (a : volVectorField) (s : scalar) : volVectorField :=
  { internalField := a.internalField.map (fun v => v * s)
    boundaryField := a.boundaryField.map (fun patch => patch.map (fun v => v * s)) }

end volVectorField

/-- The value of a boundary field at face `f` of patch `p`, when there is one. -/
def face? {α : Type} (b : List (List α)) (p f : Nat) : Option α :=
  match b[p]? with
  | some patch => patch[f]?
  | none => none

/-! ## The traction of one time -/

/-- The right-hand side of the incompressible assignment on one patch:
`rho.value() * (-Sf / magSf) & Reff`, where `*` binds tighter than `&`. -/
def incompressiblePatch (rho : scalar) (Sf : List vector) (magSf : List scalar)
    (Reff : List symmTensor) : List vector :=
  List.zipWith (fun v st => vector.inner v st)
    ((List.zipWith (fun v m => v / m) (Sf.map (fun v => -v)) magSf).map (fun v => rho * v))
    Reff

/-- The right-hand side of the compressible assignment on one patch:
`(-Sf / magSf) & Reff`. -/
def compressiblePatch (Sf : List vector) (magSf : List scalar)
    (Reff : List symmTensor) : List vector :=
  List.zipWith (fun v st => vector.inner v st)
    (List.zipWith (fun v m => v / m) (Sf.map (fun v => -v)) magSf)
    Reff

/-- The patch list `l[patchI]` of a boundary field (empty past the end). -/
def patchOf {α : Type} (b : List (List α)) (patchI : Nat) : List α :=
  b.getD patchI []

/-- Incompressible traction `calcIncompressible(mesh, runTime, U, WSS)`: returns
`WSS` as it was when there is no `mu` header, and otherwise assigns every patch
of `WSS.boundaryField()`. -/
def calcIncompressible (mesh : fvMesh) (runTime : TimeDir) (_U : volVectorField)
    (WSS : volVectorField) : volVectorField :=
  match runTime.mu with
  | none => WSS
  | some _mu =>
    let Reff := runTime.devReff
    let rho := runTime.laminarTransportRho
    { internalField := WSS.internalField
      boundaryField :=
        (List.range WSS.boundaryField.length).map (fun patchI =>
          incompressiblePatch rho (patchOf mesh.Sf patchI) (patchOf mesh.magSf patchI)
            (patchOf Reff patchI)) }

/-- Compressible traction `calcCompressible(mesh, runTime, U, WSS)`: returns
`WSS` as it was when there is no `rho` header, and otherwise assigns every
patch of `WSS.boundaryField()`. -/
def calcCompressible (mesh : fvMesh) (runTime : TimeDir) (_U : volVectorField)
    (WSS : volVectorField) : volVectorField :=
  match runTime.rho with
  | none => WSS
  | some _rho =>
    let Reff := runTime.devRhoReff
    { internalField := WSS.internalField
      boundaryField :=
        (List.range WSS.boundaryField.length).map (fun patchI =>
          compressiblePatch (patchOf mesh.Sf patchI) (patchOf mesh.magSf patchI)
            (patchOf Reff patchI)) }

/-! ## The time loop of `main` -/

/-- The state carried by the loop of `main`: the field `TAWSSPP`, the counter
`nTime`, the time directories visited so far (with the files written in them),
the calls of `write()` in order (object name and value), and the `WSS` field
constructed in each iteration.  The counter is an `int` that counts the
selected times; it is kept as a natural number and enters `/=` and `*=` as a
scalar. -/
structure LoopState where
  TAWSSPP : volVectorField
  nTime : Nat
  timeDirs : List TimeDir
  written : List (String × volVectorField)
  WSS : List volVectorField
deriving DecidableEq, Repr

/-- The `WSS` field of one iteration: constructed as the zero field on the
mesh, then passed to the calculator of the regime when the header of `U` is ok. -/
def computeWSS (compressible : Bool) (runTime : TimeDir) : volVectorField :=
  let WSS := volVectorField.uniform runTime.mesh vector.zero
  match runTime.U with
  | some U =>
    if compressible then calcCompressible runTime.mesh runTime U WSS
    else calcIncompressible runTime.mesh runTime U WSS
  | none => WSS

/-- One iteration of the loop `forAll(timeDirs, timeI)`: construct `WSS`, add it
to `TAWSSPP`, divide by `nTime`, call `TAWSSPP.write()`, multiply back by `nTime`
and increment `nTime`.  The only call of `write()` is that of `TAWSSPP`; `WSS`
is a local of the loop body on which `write()` is not called, and the time
database, which would write the objects flagged `AUTO_WRITE`, is never asked
to write. -/
def timeStep (compressible : Bool) (s : LoopState) (runTime : TimeDir) : LoopState :=
  let WSS := computeWSS compressible runTime
  let TAWSSPP := s.TAWSSPP.addAssign WSS
  let TAWSSPP := TAWSSPP.divAssign (s.nTime : scalar)
  { TAWSSPP := TAWSSPP.mulAssign (s.nTime : scalar)
    nTime := s.nTime + 1
    timeDirs := s.timeDirs ++ [{ runTime with TAWSSPP := some TAWSSPP }]
    written := s.written ++ [("TAWSSPP", TAWSSPP)]
    WSS := s.WSS ++ [WSS] }

/-- The state before the loop: `TAWSSPP` is the zero field on the mesh of
`createNamedMesh.H` and `nTime` is one. -/
def initialState (mesh : fvMesh) : LoopState :=
  { TAWSSPP := volVectorField.uniform mesh vector.zero
    nTime := 1
    timeDirs := []
    written := []
    WSS := [] }

/-- The program `main`: `mesh` is the mesh created at start-up and `timeDirs`
the selected times in order; the result is the state when the loop ends. -/
def main (compressible : Bool) (mesh : fvMesh) (timeDirs : List TimeDir) : LoopState :=
  timeDirs.foldl (timeStep compressible) (initialState mesh)

/-- Whether the time directory has the input of the regime: the header of `U`
is ok, and so is that of `rho` (compressible) or of `mu` (incompressible). -/
def hasData (compressible : Bool) (runTime : TimeDir) : Bool :=
  runTime.U.isSome && (if compressible then runTime.rho.isSome else runTime.mu.isSome)

/-- Two time directories hold the same declared input: they agree on all but
the file `TAWSSPP`, which the utility writes and never reads. -/
def sameInputs (a b : TimeDir) : Prop :=
  a.mesh = b.mesh ∧ a.U = b.U ∧ a.mu = b.mu ∧ a.rho = b.rho ∧ a.devReff = b.devReff
    ∧ a.laminarTransportRho = b.laminarTransportRho ∧ a.devRhoReff = b.devRhoReff

instance (a b : TimeDir) : Decidable (sameInputs a b) := by
  unfold sameInputs
  infer_instance

/-! ## A concrete scenario -/

/-- A mesh of one cell and one patch with one face of unit area, normal `-x`. -/
def unitMesh : fvMesh := { nCells := 1, Sf := [[⟨-1, 0, 0⟩]], magSf := [[1]] }

/-- A stress tensor with the single non-zero component `xx`. -/
def tensorXX (a : scalar) : symmTensor := ⟨a, 0, 0, 0, 0, 0⟩

/-- A time directory on `unitMesh` with `U` and `mu`, unit density and wall
stress component `a`. -/
def dirWith (a : scalar) : TimeDir :=
  { mesh := unitMesh
    U := some ⟨[vector.zero], [[vector.zero]]⟩
    mu := some ⟨[1], [[1]]⟩
    rho := none
    devReff := [[tensorXX a]]
    laminarTransportRho := 1
    devRhoReff := [[tensorXX a]]
    TAWSSPP := none }

/-- A time directory on `unitMesh` with `U`, `mu` and `rho`, transport density
two, and the same stress tensor (component `xx` one) from both closures. -/
def dirBoth : TimeDir :=
  { mesh := unitMesh
    U := some ⟨[vector.zero], [[vector.zero]]⟩
    mu := some ⟨[1], [[1]]⟩
    rho := some ⟨[2], [[2]]⟩
    devReff := [[tensorXX 1]]
    laminarTransportRho := 2
    devRhoReff := [[tensorXX 1]]
    TAWSSPP := none }

/-- A time directory on `unitMesh` without the field `U`. -/
def dirNoU : TimeDir := { dirWith 7 with U := none }

/-! ## Algebra of vectors -/

theorem vector.zero_def : (0 : vector) = ⟨0, 0, 0⟩ := rfl
theorem vector.add_def (v w : vector) : v + w = ⟨v.x + w.x, v.y + w.y, v.z + w.z⟩ := rfl
theorem vector.neg_def (v : vector) : -v = ⟨-v.x, -v.y, -v.z⟩ := rfl
theorem vector.smul_def (s : scalar) (v : vector) : s * v = ⟨s * v.x, s * v.y, s * v.z⟩ := rfl
theorem vector.muls_def (v : vector) (s : scalar) : v * s = ⟨v.x * s, v.y * s, v.z * s⟩ := rfl
theorem vector.divs_def (v : vector) (s : scalar) : v / s = ⟨v.x / s, v.y / s, v.z / s⟩ := rfl

/-- Dividing by a non-zero scalar and multiplying back restores the vector. -/
theorem vector.divs_muls_cancel (v : vector) (n : scalar) (hn : n ≠ 0) : (v / n) * n = v := by
  simp only [vector.divs_def, vector.muls_def]
  ext <;> simp [div_mul_cancel₀, hn]

/-- Scaling by a non-zero scalar and dividing back restores the vector. -/
theorem vector.smul_divs_cancel (r : scalar) (v : vector) (hr : r ≠ 0) : (r * v) / r = v := by
  simp only [vector.divs_def, vector.smul_def]
  ext <;> simp [mul_div_cancel_left₀, hr]

/-- The inner product with a tensor commutes with the scaling of the vector. -/
theorem vector.inner_smul (r : scalar) (v : vector) (st : symmTensor) :
    vector.inner (r * v) st = r * vector.inner v st := by
  simp only [vector.smul_def, vector.inner]
  ext <;> simp <;> ring

/-! ## Faces of boundary fields -/

theorem face?_zipWith {α β γ : Type} (g : α → β → γ) (A : List (List α)) (B : List (List β))
    (p f : Nat) (a : α) (b : β) (ha : face? A p f = some a) (hb : face? B p f = some b) :
    face? (List.zipWith (fun pa pb => List.zipWith g pa pb) A B) p f = some (g a b) := by
  unfold face? at *
  rw [List.getElem?_zipWith]
  cases hA : A[p]? with
  | none => simp [hA] at ha
  | some pa =>
    cases hB : B[p]? with
    | none => simp [hB] at hb
    | some pb =>
      simp only [hA, hB] at ha hb ⊢
      rw [List.getElem?_zipWith, ha, hb]

theorem face?_map {α β : Type} (g : α → β) (A : List (List α)) (p f : Nat) :
    face? (A.map (fun patch => patch.map g)) p f = (face? A p f).map g := by
  unfold face?
  rw [List.getElem?_map]
  cases A[p]? with
  | none => rfl
  | some pa => simp

theorem face?_uniform (mesh : fvMesh) (v : vector) (p f : Nat) :
    face? (volVectorField.uniform mesh v).boundaryField p f
      = (face? mesh.Sf p f).map (fun _ => v) := by
  unfold face? volVectorField.uniform
  simp only [List.getElem?_map]
  cases mesh.Sf[p]? with
  | none => rfl
  | some pa =>
    simp only [Option.map_some', List.getElem?_replicate]
    by_cases h : f < pa.length
    · simp [h]
    · simp [h, List.getElem?_eq_none (Nat.le_of_not_lt h)]

theorem face?_range_map {α : Type} (n : Nat) (g : Nat → List α) (p f : Nat) (hp : p < n) :
    face? ((List.range n).map g) p f = (g p)[f]? := by
  unfold face?
  simp [List.getElem?_range hp]

theorem patchOf_getElem? {α : Type} (b : List (List α)) (p f : Nat) :
    (patchOf b p)[f]? = face? b p f := by
  unfold patchOf face?
  rw [List.getD_eq_getElem?_getD]
  cases b[p]? with
  | none => simp
  | some pa => simp

/-! ## Field operators -/

theorem volVectorField.divAssign_mulAssign (a : volVectorField) (n : scalar) (hn : n ≠ 0) :
    (a.divAssign n).mulAssign n = a := by
  cases a with
  | mk i b =>
    simp only [volVectorField.divAssign, volVectorField.mulAssign, List.map_map,
      volVectorField.mk.injEq]
    have h1 : ((fun v : vector => v * n) ∘ fun v : vector => v / n) = id := by
      funext v
      exact vector.divs_muls_cancel v n hn
    have h2 : ((fun patch : List vector => patch.map (fun v : vector => v * n)) ∘
        fun patch : List vector => patch.map (fun v : vector => v / n)) = id := by
      funext patch
      simp only [Function.comp, List.map_map, h1, List.map_id, id]
    rw [h1, h2]
    simp

/-! ## The loop, from an arbitrary state -/

theorem timeStep_TAWSSPP (c : Bool) (s : LoopState) (d : TimeDir) (hs : 1 ≤ s.nTime) :
    (timeStep c s d).TAWSSPP = s.TAWSSPP.addAssign (computeWSS c d) := by
  have hn : (s.nTime : scalar) ≠ 0 := by
    have : (0 : scalar) < (s.nTime : scalar) := by exact_mod_cast hs
    exact ne_of_gt this
  exact volVectorField.divAssign_mulAssign _ _ hn

theorem foldl_nTime (c : Bool) (ds : List TimeDir) :
    ∀ s : LoopState, (ds.foldl (timeStep c) s).nTime = s.nTime + ds.length := by
  induction ds with
  | nil => intro s; rfl
  | cons d ds ih =>
    intro s
    rw [List.foldl_cons, ih]
    simp only [timeStep, List.length_cons]
    omega

theorem foldl_WSS (c : Bool) (ds : List TimeDir) :
    ∀ s : LoopState, (ds.foldl (timeStep c) s).WSS = s.WSS ++ ds.map (computeWSS c) := by
  induction ds with
  | nil => intro s; simp
  | cons d ds ih =>
    intro s
    rw [List.foldl_cons, ih]
    simp [timeStep]

theorem foldl_written (c : Bool) (ds : List TimeDir) :
    ∀ s : LoopState, ∃ extra, (ds.foldl (timeStep c) s).written = s.written ++ extra
      ∧ extra.length = ds.length ∧ ∀ r ∈ extra, r.1 = "TAWSSPP" := by
  induction ds with
  | nil => intro s; exact ⟨[], by simp⟩
  | cons d ds ih =>
    intro s
    obtain ⟨extra, h1, h2, h3⟩ := ih (timeStep c s d)
    refine ⟨("TAWSSPP", (s.TAWSSPP.addAssign (computeWSS c d)).divAssign (s.nTime : scalar))
      :: extra, ?_, ?_, ?_⟩
    · rw [List.foldl_cons, h1]
      simp only [timeStep, List.append_assoc, List.singleton_append]
    · simp [h2]
    · intro r hr
      rcases List.mem_cons.mp hr with h | h
      · rw [h]
      · exact h3 r h

theorem foldl_TAWSSPP (c : Bool) (ds : List TimeDir) :
    ∀ s : LoopState, 1 ≤ s.nTime →
      (ds.foldl (timeStep c) s).TAWSSPP
        = (ds.map (computeWSS c)).foldl volVectorField.addAssign s.TAWSSPP := by
  induction ds with
  | nil => intro s _; rfl
  | cons d ds ih =>
    intro s hs
    have h1 : 1 ≤ (timeStep c s d).nTime := by
      simp only [timeStep]
      omega
    rw [List.foldl_cons, ih _ h1, timeStep_TAWSSPP c s d hs]
    rfl

/-- The record written in iteration `i + 1` holds the stored field of that
iteration divided by the counter. -/
theorem foldl_written_getElem? (c : Bool) (ds : List TimeDir) :
    ∀ (s : LoopState) (i : Nat), 1 ≤ s.nTime → i < ds.length →
      (ds.foldl (timeStep c) s).written[s.written.length + i]?
        = some ("TAWSSPP",
            ((ds.take (i + 1)).foldl (timeStep c) s).TAWSSPP.divAssign
              ((s.nTime + i : Nat) : scalar)) := by
  induction ds with
  | nil => intro s i _ hi; simp at hi
  | cons d ds ih =>
    intro s i hs hi
    have h1 : 1 ≤ (timeStep c s d).nTime := by
      simp only [timeStep]
      omega
    cases i with
    | zero =>
      obtain ⟨extra, he, _, _⟩ := foldl_written c ds (timeStep c s d)
      rw [List.foldl_cons, he]
      simp only [List.take_succ_cons, List.take_zero, List.foldl_cons, List.foldl_nil,
        Nat.add_zero]
      rw [timeStep_TAWSSPP c s d hs]
      simp only [timeStep, List.append_assoc, List.singleton_append]
      rw [List.getElem?_append_right (Nat.le_refl _)]
      simp
    | succ i =>
      have hi2 : i < ds.length := by simpa using hi
      have := ih (timeStep c s d) i h1 hi2
      rw [List.foldl_cons, List.take_succ_cons, List.foldl_cons]
      have hl : (timeStep c s d).written.length + i = s.written.length + (i + 1) := by
        simp only [timeStep, List.length_append, List.length_singleton]
        omega
      have hn : (timeStep c s d).nTime + i = s.nTime + (i + 1) := by
        simp only [timeStep]
        omega
      rw [hl, hn] at this
      exact this

/-- The face values of a sum of fields: each snapshot adds its value. -/
theorem face?_foldl_addAssign (p f : Nat) (ws : List volVectorField) :
    ∀ (T : volVectorField) (a : vector) (vs : List vector),
      face? T.boundaryField p f = some a →
      ws.map (fun w => face? w.boundaryField p f) = vs.map some →
      face? (ws.foldl volVectorField.addAssign T).boundaryField p f = some (a + vs.sum) := by
  induction ws with
  | nil =>
    intro T a vs hT hvs
    cases vs with
    | nil => simpa using hT
    | cons v vs => simp at hvs
  | cons w ws ih =>
    intro T a vs hT hvs
    cases vs with
    | nil => simp at hvs
    | cons v vs =>
      simp only [List.map_cons, List.cons.injEq] at hvs
      have h1 : face? (T.addAssign w).boundaryField p f = some (a + v) :=
        face?_zipWith (fun v w => v + w) _ _ p f a v hT hvs.1
      rw [List.foldl_cons, ih _ _ vs h1 hvs.2, List.sum_cons, add_assoc]

/-! ## The traction formulas -/

theorem incompressiblePatch_getElem? (rho : scalar) (Sf : List vector) (magSf : List scalar)
    (Reff : List symmTensor) (f : Nat) (s : vector) (m : scalar) (R : symmTensor)
    (hs : Sf[f]? = some s) (hm : magSf[f]? = some m) (hR : Reff[f]? = some R) :
    (incompressiblePatch rho Sf magSf Reff)[f]? = some (vector.inner (rho * ((-s) / m)) R) := by
  unfold incompressiblePatch
  rw [List.getElem?_zipWith, List.getElem?_map, List.getElem?_zipWith, List.getElem?_map,
    hs, hm, hR]
  rfl

theorem compressiblePatch_getElem? (Sf : List vector) (magSf : List scalar)
    (Reff : List symmTensor) (f : Nat) (s : vector) (m : scalar) (R : symmTensor)
    (hs : Sf[f]? = some s) (hm : magSf[f]? = some m) (hR : Reff[f]? = some R) :
    (compressiblePatch Sf magSf Reff)[f]? = some (vector.inner ((-s) / m) R) := by
  unfold compressiblePatch
  rw [List.getElem?_zipWith, List.getElem?_zipWith, List.getElem?_map, hs, hm, hR]
  rfl

theorem calcIncompressible_face (mesh : fvMesh) (runTime : TimeDir) (U WSS : volVectorField)
    (mu : volScalarField) (p f : Nat) (Sf : vector) (magSf : scalar) (Reff : symmTensor)
    (hmu : runTime.mu = some mu) (hp : p < WSS.boundaryField.length)
    (hSf : face? mesh.Sf p f = some Sf) (hmag : face? mesh.magSf p f = some magSf)
    (hReff : face? runTime.devReff p f = some Reff) :
    face? (calcIncompressible mesh runTime U WSS).boundaryField p f
      = some (vector.inner (runTime.laminarTransportRho * ((-Sf) / magSf)) Reff) := by
  unfold calcIncompressible
  rw [hmu]
  simp only
  rw [face?_range_map _ _ p f hp]
  apply incompressiblePatch_getElem?
  · rw [patchOf_getElem?, hSf]
  · rw [patchOf_getElem?, hmag]
  · rw [patchOf_getElem?, hReff]

theorem calcCompressible_face (mesh : fvMesh) (runTime : TimeDir) (U WSS : volVectorField)
    (rho : volScalarField) (p f : Nat) (Sf : vector) (magSf : scalar) (Reff : symmTensor)
    (hrho : runTime.rho = some rho) (hp : p < WSS.boundaryField.length)
    (hSf : face? mesh.Sf p f = some Sf) (hmag : face? mesh.magSf p f = some magSf)
    (hReff : face? runTime.devRhoReff p f = some Reff) :
    face? (calcCompressible mesh runTime U WSS).boundaryField p f
      = some (vector.inner ((-Sf) / magSf) Reff) := by
  unfold calcCompressible
  rw [hrho]
  simp only
  rw [face?_range_map _ _ p f hp]
  apply compressiblePatch_getElem?
  · rw [patchOf_getElem?, hSf]
  · rw [patchOf_getElem?, hmag]
  · rw [patchOf_getElem?, hReff]

/-- C3 (incompressible traction formula). When the header of `mu` is ok, at every
face `f` of every patch `p` of `WSS` whose area magnitude is not zero,
`calcIncompressible` sets the boundary value of `WSS` to
`rho * ((-Sf / magSf) & Reff)`, with `rho` the scalar constant of the transport
model: the source expression `rho * (-Sf / magSf) & Reff`, grouped as
`(rho * (-Sf / magSf)) & Reff`, has exactly this value. -/
theorem calcIncompressible_traction (mesh : fvMesh) (runTime : TimeDir)
    (U WSS : volVectorField) (mu : volScalarField) (p f : Nat) (Sf : vector) (magSf : scalar)
    (Reff : symmTensor) (hmu : runTime.mu = some mu) (hp : p < WSS.boundaryField.length)
    (hSf : face? mesh.Sf p f = some Sf) (hmag : face? mesh.magSf p f = some magSf)
    (hReff : face? runTime.devReff p f = some Reff) (_hne : magSf ≠ 0) :
    face? (calcIncompressible mesh runTime U WSS).boundaryField p f
      = some (runTime.laminarTransportRho * vector.inner ((-Sf) / magSf) Reff) := by
  rw [calcIncompressible_face mesh runTime U WSS mu p f Sf magSf Reff hmu hp hSf hmag hReff,
    vector.inner_smul]

/-- Witness of C3 on the unit mesh with transport density two: the traction of
the face is `2 * ((1, 0, 0) & Reff)`. -/
theorem calcIncompressible_traction_witness :
    face? (calcIncompressible unitMesh dirBoth ⟨[vector.zero], [[vector.zero]]⟩
        (volVectorField.uniform unitMesh vector.zero)).boundaryField 0 0
      = some ((2 : scalar) * vector.inner ((-(⟨-1, 0, 0⟩ : vector)) / (1 : scalar)) (tensorXX 1)) :=
  calcIncompressible_traction unitMesh dirBoth ⟨[vector.zero], [[vector.zero]]⟩
    (volVectorField.uniform unitMesh vector.zero) ⟨[1], [[1]]⟩ 0 0 ⟨-1, 0, 0⟩ 1 (tensorXX 1)
    rfl (by decide) rfl rfl rfl (by norm_num)

/-- C4 (compressible traction formula). When the header of `rho` is ok, at every
face `f` of every patch `p` of `WSS` whose area magnitude is not zero,
`calcCompressible` sets the boundary value of `WSS` to `(-Sf / magSf) & Reff`,
with no factor of density. -/
theorem calcCompressible_traction (mesh : fvMesh) (runTime : TimeDir)
    (U WSS : volVectorField) (rho : volScalarField) (p f : Nat) (Sf : vector) (magSf : scalar)
    (Reff : symmTensor) (hrho : runTime.rho = some rho) (hp : p < WSS.boundaryField.length)
    (hSf : face? mesh.Sf p f = some Sf) (hmag : face? mesh.magSf p f = some magSf)
    (hReff : face? runTime.devRhoReff p f = some Reff) (_hne : magSf ≠ 0) :
    face? (calcCompressible mesh runTime U WSS).boundaryField p f
      = some (vector.inner ((-Sf) / magSf) Reff) :=
  calcCompressible_face mesh runTime U WSS rho p f Sf magSf Reff hrho hp hSf hmag hReff

/-- Witness of C4 on the unit mesh: the traction of the face is
`(1, 0, 0) & Reff`, although the transport density of the directory is two. -/
theorem calcCompressible_traction_witness :
    face? (calcCompressible unitMesh dirBoth ⟨[vector.zero], [[vector.zero]]⟩
        (volVectorField.uniform unitMesh vector.zero)).boundaryField 0 0
      = some (vector.inner ((-(⟨-1, 0, 0⟩ : vector)) / (1 : scalar)) (tensorXX 1)) :=
  calcCompressible_traction unitMesh dirBoth ⟨[vector.zero], [[vector.zero]]⟩
    (volVectorField.uniform unitMesh vector.zero) ⟨[2], [[2]]⟩ 0 0 ⟨-1, 0, 0⟩ 1 (tensorXX 1)
    rfl (by decide) rfl rfl rfl (by norm_num)

/-- C5, as stated, fails. On the unit mesh, with the same stress tensor from
both closures and transport density two, the incompressible traction of the
face is `(2, 0, 0)` and the compressible one is `(1, 0, 0)`: the former is not
the latter divided by the density. -/
theorem regime_division_counterexample :
    dirBoth.devReff = dirBoth.devRhoReff ∧ dirBoth.laminarTransportRho ≠ 0
      ∧ face? unitMesh.magSf 0 0 = some 1
      ∧ face? (calcIncompressible unitMesh dirBoth ⟨[vector.zero], [[vector.zero]]⟩
          (volVectorField.uniform unitMesh vector.zero)).boundaryField 0 0 = some ⟨2, 0, 0⟩
      ∧ face? (calcCompressible unitMesh dirBoth ⟨[vector.zero], [[vector.zero]]⟩
          (volVectorField.uniform unitMesh vector.zero)).boundaryField 0 0 = some ⟨1, 0, 0⟩
      ∧ face? (calcIncompressible unitMesh dirBoth ⟨[vector.zero], [[vector.zero]]⟩
            (volVectorField.uniform unitMesh vector.zero)).boundaryField 0 0
          ≠ (face? (calcCompressible unitMesh dirBoth ⟨[vector.zero], [[vector.zero]]⟩
              (volVectorField.uniform unitMesh vector.zero)).boundaryField 0 0).map
              (fun v => v / dirBoth.laminarTransportRho) := by
  have hi : face? (calcIncompressible unitMesh dirBoth ⟨[vector.zero], [[vector.zero]]⟩
      (volVectorField.uniform unitMesh vector.zero)).boundaryField 0 0 = some ⟨2, 0, 0⟩ := by
    rw [calcIncompressible_face unitMesh dirBoth _ _ ⟨[1], [[1]]⟩ 0 0 ⟨-1, 0, 0⟩ 1 (tensorXX 1)
      rfl (by decide) rfl rfl rfl]
    simp [dirBoth, tensorXX, vector.inner, vector.neg_def, vector.smul_def, vector.divs_def]
  have hc : face? (calcCompressible unitMesh dirBoth ⟨[vector.zero], [[vector.zero]]⟩
      (volVectorField.uniform unitMesh vector.zero)).boundaryField 0 0 = some ⟨1, 0, 0⟩ := by
    rw [calcCompressible_face unitMesh dirBoth _ _ ⟨[2], [[2]]⟩ 0 0 ⟨-1, 0, 0⟩ 1 (tensorXX 1)
      rfl (by decide) rfl rfl rfl]
    simp [tensorXX, vector.inner, vector.neg_def, vector.divs_def]
  refine ⟨rfl, ?_, rfl, hi, hc, ?_⟩
  · simp [dirBoth]
  · rw [hi, hc]
    simp only [dirBoth, vector.divs_def, Option.map_some', ne_eq, Option.some.injEq,
      vector.mk.injEq, not_and]
    intro h
    norm_num at h

/-- C5, amended. With the same geometry and the same stress tensor at a face of
non-zero area, and a non-zero density constant, the incompressible traction is
the compressible traction multiplied by the density constant; equivalently the
compressible traction is the incompressible one divided by it. -/
theorem regime_relation (mesh : fvMesh) (runTime : TimeDir) (U WSS : volVectorField)
    (mu rho : volScalarField) (p f : Nat) (Sf : vector) (magSf : scalar) (Reff : symmTensor)
    (hmu : runTime.mu = some mu) (hrho : runTime.rho = some rho)
    (hp : p < WSS.boundaryField.length)
    (hSf : face? mesh.Sf p f = some Sf) (hmag : face? mesh.magSf p f = some magSf)
    (hReff : face? runTime.devReff p f = some Reff)
    (hRhoReff : face? runTime.devRhoReff p f = some Reff)
    (_hne : magSf ≠ 0) (hrho0 : runTime.laminarTransportRho ≠ 0) :
    ∃ vi vc : vector,
      face? (calcIncompressible mesh runTime U WSS).boundaryField p f = some vi
        ∧ face? (calcCompressible mesh runTime U WSS).boundaryField p f = some vc
        ∧ vi = runTime.laminarTransportRho * vc
        ∧ vc = vi / runTime.laminarTransportRho := by
  refine ⟨_, _,
    calcIncompressible_face mesh runTime U WSS mu p f Sf magSf Reff hmu hp hSf hmag hReff,
    calcCompressible_face mesh runTime U WSS rho p f Sf magSf Reff hrho hp hSf hmag hRhoReff,
    vector.inner_smul _ _ _, ?_⟩
  rw [vector.inner_smul, vector.smul_divs_cancel _ _ hrho0]

/-- Witness of the amended C5 on the unit mesh with transport density two. -/
theorem regime_relation_witness :
    ∃ vi vc : vector,
      face? (calcIncompressible unitMesh dirBoth ⟨[vector.zero], [[vector.zero]]⟩
          (volVectorField.uniform unitMesh vector.zero)).boundaryField 0 0 = some vi
        ∧ face? (calcCompressible unitMesh dirBoth ⟨[vector.zero], [[vector.zero]]⟩
          (volVectorField.uniform unitMesh vector.zero)).boundaryField 0 0 = some vc
        ∧ vi = dirBoth.laminarTransportRho * vc
        ∧ vc = vi / dirBoth.laminarTransportRho :=
  regime_relation unitMesh dirBoth ⟨[vector.zero], [[vector.zero]]⟩
    (volVectorField.uniform unitMesh vector.zero) ⟨[1], [[1]]⟩ ⟨[2], [[2]]⟩ 0 0 ⟨-1, 0, 0⟩ 1
    (tensorXX 1) rfl rfl (by decide) rfl rfl rfl rfl (by norm_num) (by simp [dirBoth])

/-! ## The loop of `main` -/

theorem main_WSS (c : Bool) (mesh : fvMesh) (ds : List TimeDir) :
    (main c mesh ds).WSS = ds.map (computeWSS c) := by
  unfold main
  rw [foldl_WSS]
  rfl

theorem main_nTime (c : Bool) (mesh : fvMesh) (ds : List TimeDir) :
    (main c mesh ds).nTime = ds.length + 1 := by
  unfold main
  rw [foldl_nTime]
  simp only [initialState]
  omega

theorem main_written_getElem? (c : Bool) (mesh : fvMesh) (ds : List TimeDir) (k : Nat)
    (hk : 1 ≤ k) (hkn : k ≤ ds.length) :
    (main c mesh ds).written[k - 1]?
      = some ("TAWSSPP", (main c mesh (ds.take k)).TAWSSPP.divAssign (k : scalar)) := by
  have h := foldl_written_getElem? c ds (initialState mesh) (k - 1) (Nat.le_refl 1)
    (by omega)
  have e1 : k - 1 + 1 = k := by omega
  have e2 : (initialState mesh).nTime + (k - 1) = k := by
    simp only [initialState]
    omega
  have e3 : (initialState mesh).written.length + (k - 1) = k - 1 := by
    simp [initialState]
  rw [e1, e2, e3] at h
  exact h

theorem main_face_sum (c : Bool) (mesh : fvMesh) (ds : List TimeDir) (p f : Nat)
    (w : List vector) (hface : (face? mesh.Sf p f).isSome)
    (hw : (ds.map (computeWSS c)).map (fun W => face? W.boundaryField p f) = w.map some) :
    face? (main c mesh ds).TAWSSPP.boundaryField p f = some w.sum := by
  have h0 : face? (initialState mesh).TAWSSPP.boundaryField p f = some 0 := by
    simp only [initialState]
    rw [face?_uniform]
    obtain ⟨v, hv⟩ := Option.isSome_iff_exists.mp hface
    rw [hv]
    rfl
  unfold main
  rw [foldl_TAWSSPP c ds _ (Nat.le_refl 1),
    face?_foldl_addAssign p f _ _ 0 w h0 hw, zero_add]

/-- C1 (running mean). Let `w` be the values, at a face `(p, f)` of the mesh, of
the `WSS` snapshots of the first `k` iterations, `k ≥ 1`. Starting from the zero
field and `nTime = 1`, the field `TAWSSPP` written in iteration `k` has the value
`(w_1 + ... + w_k) / k` at that face. -/
theorem running_mean (compressible : Bool) (mesh : fvMesh) (timeDirs : List TimeDir)
    (k p f : Nat) (w : List vector) (hk : 1 ≤ k) (hkn : k ≤ timeDirs.length)
    (hface : (face? mesh.Sf p f).isSome)
    (hw : ((main compressible mesh timeDirs).WSS.take k).map
      (fun W => face? W.boundaryField p f) = w.map some) :
    ∃ T, (main compressible mesh timeDirs).written[k - 1]? = some ("TAWSSPP", T)
      ∧ face? T.boundaryField p f = some (w.sum / (k : scalar)) := by
  refine ⟨_, main_written_getElem? compressible mesh timeDirs k hk hkn, ?_⟩
  rw [main_WSS, ← List.map_take] at hw
  simp only [volVectorField.divAssign]
  rw [face?_map, main_face_sum compressible mesh (timeDirs.take k) p f w hface hw]
  rfl

/-- Witness of C1: three times on the unit mesh, the last one without `U`. -/
theorem running_mean_witness :
    ∃ T, (main false unitMesh [dirWith 1, dirWith 3, dirNoU]).written[3 - 1]?
        = some ("TAWSSPP", T)
      ∧ face? T.boundaryField 0 0
        = some (([⟨1, 0, 0⟩, ⟨3, 0, 0⟩, ⟨0, 0, 0⟩] : List vector).sum / ((3 : Nat) : scalar)) :=
  running_mean false unitMesh [dirWith 1, dirWith 3, dirNoU] 3 0 0
    [⟨1, 0, 0⟩, ⟨3, 0, 0⟩, ⟨0, 0, 0⟩] (by decide) (by decide) rfl
    (by
      rw [main_WSS]
      simp [computeWSS, calcIncompressible, dirWith, dirNoU, unitMesh, face?,
        volVectorField.uniform, incompressiblePatch, patchOf, tensorXX, vector.inner,
        vector.zero, vector.neg_def, vector.smul_def, vector.divs_def, List.range,
        List.range.loop])

/-- C10 (loop invariant of the accumulator). After `k` complete iterations
(the loop run over the first `k` times, from which the rest of the loop
continues) `nTime` is `k + 1` and the stored field `TAWSSPP` is the raw sum of
the snapshots: as a field, the zero field plus each `WSS` in order, and at a
face `(p, f)` of the mesh the sum of the snapshot values `w` there. It is the
field written in iteration `k` multiplied by `k`, and dividing it by `nTime` and
multiplying back by `nTime` restores it. -/
theorem accumulator_invariant (compressible : Bool) (mesh : fvMesh)
    (timeDirs : List TimeDir) (k p f : Nat) (w : List vector) (hkn : k ≤ timeDirs.length)
    (hface : (face? mesh.Sf p f).isSome)
    (hw : (main compressible mesh (timeDirs.take k)).WSS.map
      (fun W => face? W.boundaryField p f) = w.map some) :
    main compressible mesh timeDirs
        = (timeDirs.drop k).foldl (timeStep compressible)
            (main compressible mesh (timeDirs.take k))
      ∧ (main compressible mesh (timeDirs.take k)).nTime = k + 1
      ∧ (main compressible mesh (timeDirs.take k)).TAWSSPP
          = (main compressible mesh (timeDirs.take k)).WSS.foldl volVectorField.addAssign
              (volVectorField.uniform mesh vector.zero)
      ∧ face? (main compressible mesh (timeDirs.take k)).TAWSSPP.boundaryField p f
          = some w.sum
      ∧ (1 ≤ k → ∃ T, (main compressible mesh timeDirs).written[k - 1]? = some ("TAWSSPP", T)
          ∧ T.mulAssign (k : scalar) = (main compressible mesh (timeDirs.take k)).TAWSSPP)
      ∧ ((main compressible mesh (timeDirs.take k)).TAWSSPP.divAssign
            ((main compressible mesh (timeDirs.take k)).nTime : scalar)).mulAssign
            ((main compressible mesh (timeDirs.take k)).nTime : scalar)
          = (main compressible mesh (timeDirs.take k)).TAWSSPP := by
  have hn : (main compressible mesh (timeDirs.take k)).nTime = k + 1 := by
    rw [main_nTime, List.length_take, Nat.min_eq_left hkn]
  refine ⟨?_, hn, ?_, ?_, ?_, ?_⟩
  · unfold main
    rw [← List.foldl_append, List.take_append_drop]
  · rw [main_WSS]
    exact foldl_TAWSSPP compressible _ _ (Nat.le_refl 1)
  · rw [main_WSS] at hw
    exact main_face_sum compressible mesh _ p f w hface hw
  · intro hk
    refine ⟨_, main_written_getElem? compressible mesh timeDirs k hk hkn, ?_⟩
    apply volVectorField.divAssign_mulAssign
    have : (0 : scalar) < (k : scalar) := by exact_mod_cast hk
    exact ne_of_gt this
  · apply volVectorField.divAssign_mulAssign
    rw [hn]
    exact_mod_cast Nat.succ_ne_zero k

/-- Witness of C10: two iterations of a run over three times on the unit mesh. -/
theorem accumulator_invariant_witness :
    (main false unitMesh ([dirWith 1, dirWith 3, dirNoU].take 2)).nTime = 2 + 1
      ∧ face? (main false unitMesh ([dirWith 1, dirWith 3, dirNoU].take 2)).TAWSSPP.boundaryField
          0 0 = some ([⟨1, 0, 0⟩, ⟨3, 0, 0⟩] : List vector).sum :=
  have h := accumulator_invariant false unitMesh [dirWith 1, dirWith 3, dirNoU] 2 0 0
    [⟨1, 0, 0⟩, ⟨3, 0, 0⟩] (by decide) rfl
    (by
      rw [main_WSS]
      simp [computeWSS, calcIncompressible, dirWith, unitMesh, face?,
        volVectorField.uniform, incompressiblePatch, patchOf, tensorXX, vector.inner,
        vector.zero, vector.neg_def, vector.smul_def, vector.divs_def, List.range,
        List.range.loop])
  ⟨h.2.1, h.2.2.2.1⟩

/-! ## Missing input -/

theorem calcIncompressible_no_mu (mesh : fvMesh) (runTime : TimeDir) (U WSS : volVectorField)
    (h : runTime.mu = none) : calcIncompressible mesh runTime U WSS = WSS := by
  unfold calcIncompressible
  rw [h]

theorem calcCompressible_no_rho (mesh : fvMesh) (runTime : TimeDir) (U WSS : volVectorField)
    (h : runTime.rho = none) : calcCompressible mesh runTime U WSS = WSS := by
  unfold calcCompressible
  rw [h]

theorem computeWSS_missing (c : Bool) (d : TimeDir)
    (h : d.U = none ∨ (c = false ∧ d.mu = none) ∨ (c = true ∧ d.rho = none)) :
    computeWSS c d = volVectorField.uniform d.mesh vector.zero := by
  unfold computeWSS
  cases hU : d.U with
  | none => rfl
  | some U =>
    rcases h with h | ⟨hc, hmu⟩ | ⟨hc, hrho⟩
    · rw [hU] at h
      cases h
    · subst hc
      simp only [Bool.false_eq_true, if_false]
      exact calcIncompressible_no_mu _ _ _ _ hmu
    · subst hc
      simp only [if_true]
      exact calcCompressible_no_rho _ _ _ _ hrho

theorem computeWSS_noData (c : Bool) (d : TimeDir) (h : hasData c d = false) :
    computeWSS c d = volVectorField.uniform d.mesh vector.zero := by
  apply computeWSS_missing
  unfold hasData at h
  cases hU : d.U with
  | none => exact Or.inl rfl
  | some U =>
    right
    cases c with
    | false =>
      left
      refine ⟨rfl, ?_⟩
      cases hmu : d.mu with
      | none => rfl
      | some m => simp [hU, hmu] at h
    | true =>
      right
      refine ⟨rfl, ?_⟩
      cases hrho : d.rho with
      | none => rfl
      | some r => simp [hU, hrho] at h

theorem face?_uniform_eq (mesh : fvMesh) (v a : vector) (p f : Nat)
    (h : face? (volVectorField.uniform mesh v).boundaryField p f = some a) : a = v := by
  rw [face?_uniform] at h
  cases hs : face? mesh.Sf p f with
  | none => simp [hs] at h
  | some x =>
    rw [hs] at h
    simpa using h.symm

theorem sum_map_filter_of_zero (P : TimeDir → Bool) (w : TimeDir → vector) :
    ∀ l : List TimeDir, (∀ d ∈ l, P d = false → w d = 0) →
      (l.map w).sum = ((l.filter P).map w).sum := by
  intro l
  induction l with
  | nil => intro _; rfl
  | cons d l ih =>
    intro h
    have ih2 := ih (fun x hx => h x (List.mem_cons_of_mem d hx))
    cases hP : P d with
    | false =>
      rw [List.filter_cons_of_neg (by simp [hP]), List.map_cons, List.sum_cons, ih2,
        h d (List.mem_cons_self d l) hP, zero_add]
    | true =>
      rw [List.filter_cons_of_pos hP, List.map_cons, List.map_cons, List.sum_cons,
        List.sum_cons, ih2]

theorem scenario_WSS :
    (main false unitMesh [dirWith 1, dirWith 3, dirNoU]).WSS.map (fun W => W.boundaryField)
      = [[[⟨1, 0, 0⟩]], [[⟨3, 0, 0⟩]], [[⟨0, 0, 0⟩]]] := by
  rw [main_WSS]
  simp [computeWSS, calcIncompressible, dirWith, dirNoU, unitMesh,
    volVectorField.uniform, incompressiblePatch, patchOf, tensorXX, vector.inner,
    vector.zero, vector.neg_def, vector.smul_def, vector.divs_def, List.range,
    List.range.loop]

theorem scenario_written :
    (main false unitMesh [dirWith 1, dirWith 3, dirNoU]).written.map
        (fun r => (r.1, r.2.boundaryField))
      = [("TAWSSPP", [[⟨1, 0, 0⟩]]), ("TAWSSPP", [[⟨2, 0, 0⟩]]),
          ("TAWSSPP", [[⟨4 / 3, 0, 0⟩]])] := by
  simp [main, timeStep, initialState, computeWSS, calcIncompressible, dirWith, dirNoU,
    unitMesh, volVectorField.uniform, volVectorField.addAssign, volVectorField.divAssign,
    volVectorField.mulAssign, incompressiblePatch, patchOf, tensorXX, vector.inner,
    vector.zero, vector.add_def, vector.neg_def, vector.smul_def, vector.muls_def,
    vector.divs_def, List.range, List.range.loop]
  norm_num

/-- C2 (zero-fallback dilution). A time without the input of the regime has the
zero field as its snapshot and still advances `nTime`, so with `w d` the value at
a face `(p, f)` of the snapshot of time `d`, the field written in iteration `k`
has at that face the sum of `w` over the times with data among the first `k`,
divided by `k`. On the unit mesh, snapshots `(1,0,0)`, `(3,0,0)` and then a time
without `U` give the written values `(1,0,0)`, `(2,0,0)`, `(4/3,0,0)`. -/
theorem zero_fallback_dilution (compressible : Bool) (mesh : fvMesh)
    (timeDirs : List TimeDir) (k p f : Nat) (w : TimeDir → vector)
    (hk : 1 ≤ k) (hkn : k ≤ timeDirs.length) (hface : (face? mesh.Sf p f).isSome)
    (hw : ∀ d ∈ timeDirs.take k,
      face? (computeWSS compressible d).boundaryField p f = some (w d)) :
    (∀ d ∈ timeDirs.take k, hasData compressible d = false →
        computeWSS compressible d = volVectorField.uniform d.mesh vector.zero ∧ w d = 0)
      ∧ (main compressible mesh (timeDirs.take k)).nTime = k + 1
      ∧ (∃ T, (main compressible mesh timeDirs).written[k - 1]? = some ("TAWSSPP", T)
          ∧ face? T.boundaryField p f
            = some ((((timeDirs.take k).filter (hasData compressible)).map w).sum
                / (k : scalar)))
      ∧ (main false unitMesh [dirWith 1, dirWith 3, dirNoU]).WSS.map (fun W => W.boundaryField)
          = [[[⟨1, 0, 0⟩]], [[⟨3, 0, 0⟩]], [[⟨0, 0, 0⟩]]]
      ∧ (main false unitMesh [dirWith 1, dirWith 3, dirNoU]).written.map
            (fun r => (r.1, r.2.boundaryField))
          = [("TAWSSPP", [[⟨1, 0, 0⟩]]), ("TAWSSPP", [[⟨2, 0, 0⟩]]),
              ("TAWSSPP", [[⟨4 / 3, 0, 0⟩]])] := by
  have hzero : ∀ d ∈ timeDirs.take k, hasData compressible d = false →
      computeWSS compressible d = volVectorField.uniform d.mesh vector.zero ∧ w d = 0 := by
    intro d hd hdata
    have h1 := computeWSS_noData compressible d hdata
    refine ⟨h1, ?_⟩
    have h2 := hw d hd
    rw [h1] at h2
    exact face?_uniform_eq _ _ _ _ _ h2
  refine ⟨hzero, ?_, ?_, scenario_WSS, scenario_written⟩
  · rw [main_nTime, List.length_take, Nat.min_eq_left hkn]
  · refine ⟨_, main_written_getElem? compressible mesh timeDirs k hk hkn, ?_⟩
    have hw2 : ((timeDirs.take k).map (computeWSS compressible)).map
        (fun W => face? W.boundaryField p f) = ((timeDirs.take k).map w).map some := by
      rw [List.map_map, List.map_map]
      apply List.map_congr_left
      intro d hd
      exact hw d hd
    simp only [volVectorField.divAssign]
    rw [face?_map, main_face_sum compressible mesh (timeDirs.take k) p f _ hface hw2,
      sum_map_filter_of_zero (hasData compressible) w _ (fun d hd h => (hzero d hd h).2)]
    rfl

/-- Witness of C2: the scenario itself, with the value `w` of a snapshot read
from the stress component of its time directory. -/
theorem zero_fallback_dilution_witness :
    ∃ T, (main false unitMesh [dirWith 1, dirWith 3, dirNoU]).written[3 - 1]?
        = some ("TAWSSPP", T)
      ∧ face? T.boundaryField 0 0
        = some (((([dirWith 1, dirWith 3, dirNoU].take 3).filter (hasData false)).map
            (fun d => (face? (computeWSS false d).boundaryField 0 0).getD 0)).sum
            / ((3 : Nat) : scalar)) :=
  (zero_fallback_dilution false unitMesh [dirWith 1, dirWith 3, dirNoU] 3 0 0
    (fun d => (face? (computeWSS false d).boundaryField 0 0).getD 0)
    (by decide) (by decide) rfl
    (by
      intro d hd
      simp only [List.take_succ_cons, List.take_zero, List.mem_cons, List.mem_singleton,
        List.not_mem_nil, or_false] at hd
      rcases hd with h | h | h <;> subst h <;> rfl)).2.2.1

theorem main_written_length (c : Bool) (mesh : fvMesh) (ds : List TimeDir) :
    (main c mesh ds).written.length = ds.length := by
  obtain ⟨extra, h1, h2, _⟩ := foldl_written c ds (initialState mesh)
  unfold main
  rw [h1]
  simp [initialState, h2]

/-- C6 (missing-input fallback). When the header of `U` is not ok, or it is ok but
the header of the field of the regime is not (`mu` incompressible, `rho`
compressible), the `WSS` of that time is the zero field, zero at every face;
`calcIncompressible` and `calcCompressible` return `WSS` unchanged when their
field is missing; and the run goes on: the iteration writes its record and
advances `nTime`, and a run over times before and after it writes one record
for each of them. -/
theorem missing_input_fallback (compressible : Bool) (runTime : TimeDir)
    (h : runTime.U = none ∨ (compressible = false ∧ runTime.mu = none)
      ∨ (compressible = true ∧ runTime.rho = none)) :
    computeWSS compressible runTime = volVectorField.uniform runTime.mesh vector.zero
      ∧ (∀ p f v, face? (computeWSS compressible runTime).boundaryField p f = some v
          → v = vector.zero)
      ∧ (∀ mesh U WSS, runTime.mu = none → calcIncompressible mesh runTime U WSS = WSS)
      ∧ (∀ mesh U WSS, runTime.rho = none → calcCompressible mesh runTime U WSS = WSS)
      ∧ (∀ s : LoopState, (timeStep compressible s runTime).nTime = s.nTime + 1
          ∧ (timeStep compressible s runTime).written
            = s.written ++ [("TAWSSPP",
                (s.TAWSSPP.addAssign (volVectorField.uniform runTime.mesh vector.zero)).divAssign
                  (s.nTime : scalar))])
      ∧ (∀ mesh before after,
          (main compressible mesh (before ++ runTime :: after)).written.length
            = before.length + 1 + after.length) := by
  have h1 := computeWSS_missing compressible runTime h
  refine ⟨h1, ?_, ?_, ?_, ?_, ?_⟩
  · intro p f v hv
    rw [h1] at hv
    exact face?_uniform_eq _ _ _ _ _ hv
  · intro mesh U WSS hmu
    exact calcIncompressible_no_mu mesh runTime U WSS hmu
  · intro mesh U WSS hrho
    exact calcCompressible_no_rho mesh runTime U WSS hrho
  · intro s
    refine ⟨rfl, ?_⟩
    simp only [timeStep, h1]
  · intro mesh before after
    rw [main_written_length]
    simp only [List.length_append, List.length_cons]
    omega

/-- Witness of C6: the time directory without `U` on the unit mesh. -/
theorem missing_input_fallback_witness :
    computeWSS false dirNoU = volVectorField.uniform dirNoU.mesh vector.zero :=
  (missing_input_fallback false dirNoU (Or.inl rfl)).1

/-- C8, as stated, fails. One iteration on the unit mesh appends a single
record, that of `TAWSSPP`: no record of `WSS` is written. -/
theorem per_timestep_outputs_counterexample :
    (timeStep false (initialState unitMesh) (dirWith 1)).written.map
        (fun r => (r.1, r.2.boundaryField)) = [("TAWSSPP", [[⟨1, 0, 0⟩]])]
      ∧ ¬ ∃ r ∈ (main false unitMesh [dirWith 1]).written, r.1 = "WSS" := by
  constructor
  · simp [timeStep, initialState, computeWSS, calcIncompressible, dirWith,
      unitMesh, volVectorField.uniform, volVectorField.addAssign, volVectorField.divAssign,
      incompressiblePatch, patchOf, tensorXX, vector.inner,
      vector.zero, vector.add_def, vector.neg_def, vector.smul_def,
      vector.divs_def, List.range, List.range.loop]
  · rintro ⟨r, hr, hname⟩
    obtain ⟨extra, h1, _, h3⟩ := foldl_written false [dirWith 1] (initialState unitMesh)
    have hr2 : r ∈ extra := by
      have : r ∈ (initialState unitMesh).written ++ extra := by
        rw [← h1]
        exact hr
      simpa [initialState] using this
    have := h3 r hr2
    rw [hname] at this
    exact absurd this (by decide)

/-- C8, amended. For every processed time the run writes the cumulative average
field `TAWSSPP`: each iteration constructs the `WSS` of the time and appends one
record, named `TAWSSPP`, to the writes, and puts the same field in the time
directory; a run over `n` times writes `n` records, all named `TAWSSPP`. -/
theorem per_timestep_outputs (compressible : Bool) (mesh : fvMesh)
    (timeDirs : List TimeDir) :
    (∀ (s : LoopState) (runTime : TimeDir),
        (timeStep compressible s runTime).written
          = s.written ++ [("TAWSSPP",
              (s.TAWSSPP.addAssign (computeWSS compressible runTime)).divAssign
                (s.nTime : scalar))]
        ∧ (timeStep compressible s runTime).timeDirs
          = s.timeDirs ++ [{ runTime with
              TAWSSPP := some ((s.TAWSSPP.addAssign (computeWSS compressible runTime)).divAssign
                (s.nTime : scalar)) }]
        ∧ (timeStep compressible s runTime).WSS = s.WSS ++ [computeWSS compressible runTime])
      ∧ (main compressible mesh timeDirs).written.length = timeDirs.length
      ∧ (∀ r ∈ (main compressible mesh timeDirs).written, r.1 = "TAWSSPP") := by
  refine ⟨fun s runTime => ⟨rfl, rfl, rfl⟩, main_written_length compressible mesh timeDirs, ?_⟩
  intro r hr
  obtain ⟨extra, h1, _, h3⟩ := foldl_written compressible timeDirs (initialState mesh)
  have hr2 : r ∈ extra := by
    have : r ∈ (initialState mesh).written ++ extra := by
      rw [← h1]
      exact hr
    simpa [initialState] using this
  exact h3 r hr2

/-! ## Re-running on the same input -/

theorem timeStep_congr (c : Bool) (s : LoopState) (a b : TimeDir) (h : sameInputs a b) :
    timeStep c s a = timeStep c s b := by
  obtain ⟨h1, h2, h3, h4, h5, h6, h7⟩ := h
  cases a
  cases b
  simp only at h1 h2 h3 h4 h5 h6 h7
  subst h1 h2 h3 h4 h5 h6 h7
  rfl

theorem foldl_congr_sameInputs (c : Bool) (as bs : List TimeDir)
    (h : List.Forall₂ sameInputs as bs) :
    ∀ s : LoopState, as.foldl (timeStep c) s = bs.foldl (timeStep c) s := by
  induction h with
  | nil => intro s; rfl
  | cons hab _ ih =>
    intro s
    rw [List.foldl_cons, List.foldl_cons, timeStep_congr c s _ _ hab]
    exact ih _

theorem foldl_timeDirs (c : Bool) (ds : List TimeDir) :
    ∀ s : LoopState, ∃ extra, (ds.foldl (timeStep c) s).timeDirs = s.timeDirs ++ extra
      ∧ List.Forall₂ sameInputs extra ds := by
  induction ds with
  | nil => intro s; exact ⟨[], by simp, List.Forall₂.nil⟩
  | cons d ds ih =>
    intro s
    obtain ⟨extra, h1, h2⟩ := ih (timeStep c s d)
    refine ⟨{ d with TAWSSPP := some ((s.TAWSSPP.addAssign (computeWSS c d)).divAssign
      (s.nTime : scalar)) } :: extra, ?_, ?_⟩
    · rw [List.foldl_cons, h1]
      simp only [timeStep, List.append_assoc, List.singleton_append]
    · exact List.Forall₂.cons ⟨rfl, rfl, rfl, rfl, rfl, rfl, rfl⟩ h2

/-- C9 (idempotence). The run is a function of the declared input only: two
lists of time directories that agree on the mesh, the fields `U`, `mu`, `rho`
and the closure data of every time, whatever files `TAWSSPP` they hold, give the
same state, hence the same `WSS` snapshots and the same written averages; and
a second run on the time directories left by a first run repeats it. -/
theorem rerun_identical (compressible : Bool) (mesh : fvMesh)
    (timeDirs timeDirs2 : List TimeDir) (h : List.Forall₂ sameInputs timeDirs timeDirs2) :
    main compressible mesh timeDirs2 = main compressible mesh timeDirs
      ∧ (main compressible mesh timeDirs2).WSS = (main compressible mesh timeDirs).WSS
      ∧ (main compressible mesh timeDirs2).written = (main compressible mesh timeDirs).written
      ∧ main compressible mesh (main compressible mesh timeDirs).timeDirs
          = main compressible mesh timeDirs := by
  have h1 : main compressible mesh timeDirs2 = main compressible mesh timeDirs :=
    (foldl_congr_sameInputs compressible timeDirs timeDirs2 h (initialState mesh)).symm
  refine ⟨h1, by rw [h1], by rw [h1], ?_⟩
  obtain ⟨extra, he, hsame⟩ := foldl_timeDirs compressible timeDirs (initialState mesh)
  have he2 : (main compressible mesh timeDirs).timeDirs = extra := by
    unfold main
    rw [he]
    simp [initialState]
  rw [he2]
  exact foldl_congr_sameInputs compressible extra timeDirs hsame (initialState mesh)

/-- Witness of C9: the scenario, and the same times holding files `TAWSSPP`
of an earlier run. -/
theorem rerun_identical_witness :
    main false unitMesh
        [{ dirWith 1 with TAWSSPP := some (volVectorField.uniform unitMesh ⟨5, 5, 5⟩) }, dirNoU]
      = main false unitMesh [dirWith 1, dirNoU] :=
  (rerun_identical false unitMesh [dirWith 1, dirNoU]
    [{ dirWith 1 with TAWSSPP := some (volVectorField.uniform unitMesh ⟨5, 5, 5⟩) }, dirNoU]
    (List.Forall₂.cons ⟨rfl, rfl, rfl, rfl, rfl, rfl, rfl⟩
      (List.Forall₂.cons ⟨rfl, rfl, rfl, rfl, rfl, rfl, rfl⟩ List.Forall₂.nil))).1

end TAWSSPP
